import Mathlib

/-
Shallow embedding of the rust-file-seq crate (src/lib.rs).

The store owns two file paths, path_1 and path_2, inside its directory.
We model the on-disk state as the contents of those two files: each slot
is either absent (the file does not exist) or a list of byte values.
Filesystem primitives are modelled deterministically: metadata succeeds
exactly when the file is present, File::open plus read_exact on an 8-byte
buffer succeeds exactly when the file holds at least 8 bytes (yielding the
first 8), fs::write replaces the file content, fs::rename moves the file
at path_2 onto path_1, and fs::remove_file succeeds exactly when the file
is present.  Environmental failures (permissions, disk full) are outside
the model, so rename and write always succeed, as in a healthy run.

Machine integers: u64 values are natural numbers; the wrapping addition
performed by the Rust + operator in release builds is (a + b) % 2^64.
-/

def u64Lim : Nat := 2 ^ 64

/-- Big-endian byte encoding of a u64, as in u64::to_be_bytes.  Each byte
is reduced mod 256, so values at least 2^64 are truncated exactly as a
cast to u64 would truncate them. -/
def u64_to_be_bytes (v : Nat) : List Nat :=
  [v / 2 ^ 56 % 256, v / 2 ^ 48 % 256, v / 2 ^ 40 % 256, v / 2 ^ 32 % 256,
   v / 2 ^ 24 % 256, v / 2 ^ 16 % 256, v / 2 ^ 8 % 256, v % 256]

/-- Big-endian byte decoding, as in u64::from_be_bytes. -/
def u64_from_be_bytes (bs : List Nat) : Nat :=
  bs.foldl (fun acc b => acc * 256 + b) 0

/-- Decoding inverts encoding up to the u64 range. -/
theorem u64_from_to_be_bytes (v : Nat) :
    u64_from_be_bytes (u64_to_be_bytes v) = v % u64Lim := by
  simp [u64_from_be_bytes, u64_to_be_bytes, u64Lim]
  omega

/-- The error kinds of std::io that the crate can produce: NotFound from
opening or removing an absent file, UnexpectedEof from read_exact on a
short file, and InvalidData, the kind the crate itself raises when both
slots are unusable. -/
inductive IOErrorKind
  | notFound
  | unexpectedEof
  | invalidData
deriving DecidableEq, Repr

/-- Contents of the two slot files of a FileSeq store: s1 is the file at
path_1 (_1.seq), s2 the file at path_2 (_2.seq); none means absent. -/
structure DiskState where
  s1 : Option (List Nat)
  s2 : Option (List Nat)
deriving DecidableEq, Repr

namespace FileSeq

/-- FileSeq::read_from_path: open the file (NotFound if absent), read
exactly 8 bytes (UnexpectedEof if fewer are available), decode big-endian. -/
def read_from_path (file : Option (List Nat)) : Except IOErrorKind Nat :=
  match file with
  | none => .error .notFound
  | some bs =>
    if 8 ≤ bs.length then .ok (u64_from_be_bytes (bs.take 8))
    else .error .unexpectedEof

/-- FileSeq::read.  value1 is read from path_1 with the ? operator, so a
present but unreadable path_1 aborts the whole read with that error;
value2 is read from path_2 with .ok(), so its failures become None.  The
reconciliation match is translated branch for branch; fs::remove_file on
path_2 with .ok() is modelled by clearing s2. -/
def read (st : DiskState) : Except IOErrorKind Nat × DiskState :=
  let value1E : Except IOErrorKind (Option Nat) :=
    match st.s1 with
    | some bs => (read_from_path (some bs)).map some
    | none => .ok none
  match value1E with
  | .error e => (.error e, st)
  | .ok value1 =>
    let value2 : Option Nat :=
      match st.s2 with
      | some bs => (read_from_path (some bs)).toOption
      | none => none
    match value2 with
    | some v2 =>
      match value1 with
      | some v1 =>
        if v2 > v1 then (.ok v2, st)
        else (.ok v1, { st with s2 := none })
      | none => (.ok v2, st)
    | none =>
      let st2 : DiskState := { st with s2 := none }
      match value1 with
      | some v1 => (.ok v1, st2)
      | none => (.error .invalidData, st2)

/-- FileSeq::write_to_path: fs::write of the big-endian bytes. -/
def write_to_path (value : Nat) : List Nat :=
  u64_to_be_bytes value

/-- FileSeq::write: if path_2 exists, rename it onto path_1 (the file at
path_1 is overwritten, path_2 becomes free), then write the value to
path_2. -/
def write (st : DiskState) (value : Nat) : DiskState :=
  let st1 : DiskState :=
    match st.s2 with
    | some bs => { s1 := some bs, s2 := none }
    | none => st
  { st1 with s2 := some (write_to_path value) }

/-- FileSeq::initialize_if_necessary: a no-op when either slot file
exists, otherwise the first write of the initial value. -/
def initialize_if_necessary (st : DiskState) (initial_value : Nat) : DiskState :=
  if st.s1.isSome || st.s2.isSome then st else write st initial_value

/-- FileSeq::new: directory creation is environmental; the on-disk effect
on the two slots is initialize_if_necessary. -/
def new (st : DiskState) (initial_value : Nat) : DiskState :=
  initialize_if_necessary st initial_value

/-- A store opened on an empty directory with the given initial value. -/
def freshStore (initial_value : Nat) : DiskState :=
  new ⟨none, none⟩ initial_value

/-- FileSeq::delete: remove path_1 with the ? operator, then remove
path_2.  remove_file fails with NotFound when the file is absent. -/
def delete (st : DiskState) : Except IOErrorKind Unit × DiskState :=
  match st.s1 with
  | none => (.error .notFound, st)
  | some _ =>
    let st1 : DiskState := { st with s1 := none }
    match st1.s2 with
    | none => (.error .notFound, st1)
    | some _ => (.ok (), { st1 with s2 := none })

/-- FileSeq::get_and_increment: read the value, write value + increment
(u64 wrapping addition in the embedding), return the pre-increment value.
A read failure propagates and skips the write. -/
def get_and_increment (st : DiskState) (increment : Nat) :
    Except IOErrorKind Nat × DiskState :=
  match read st with
  | (.error e, st1) => (.error e, st1)
  | (.ok value, st1) => (.ok value, write st1 ((value + increment) % u64Lim))

/-- FileSeq::increment_and_get: get_and_increment, then return
value + increment (u64 wrapping addition). -/
def increment_and_get (st : DiskState) (increment : Nat) :
    Except IOErrorKind Nat × DiskState :=
  match get_and_increment st increment with
  | (.error e, st1) => (.error e, st1)
  | (.ok value, st1) => (.ok ((value + increment) % u64Lim), st1)

/-- FileSeq::value: a call to read. -/
def value (st : DiskState) : Except IOErrorKind Nat × DiskState :=
  read st

end FileSeq

/-- Decoded value of a slot, discarding the error: None for an absent or
short file, as read() computes value2 for path_2. -/
def decodeSlot (file : Option (List Nat)) : Option Nat :=
  (FileSeq.read_from_path file).toOption

/-- The largest value decodable from the two slots (0 when neither
decodes).  Under GoodState this is the value read() recovers. -/
def maxVal (st : DiskState) : Nat :=
  max ((decodeSlot st.s1).getD 0) ((decodeSlot st.s2).getD 0)

/-- The slot, when present, is the canonical 8-byte encoding of a u64. -/
def validEnc (file : Option (List Nat)) : Prop :=
  ∀ bs, file = some bs → ∃ v, v < u64Lim ∧ bs = u64_to_be_bytes v

/-- States reachable by clean operation after the first successful write:
every present slot file is a canonical u64 encoding, and at least one
slot is present. -/
def GoodState (st : DiskState) : Prop :=
  validEnc st.s1 ∧ validEnc st.s2 ∧ (st.s1.isSome ∨ st.s2.isSome)

theorem validEnc_none : validEnc none := by
  intro bs h
  exact absurd h (by simp)

theorem validEnc_enc (v : Nat) (hv : v < u64Lim) :
    validEnc (some (u64_to_be_bytes v)) := by
  intro bs h
  exact ⟨v, hv, (Option.some.inj h).symm⟩

theorem read_from_path_enc (v : Nat) :
    FileSeq.read_from_path (some (u64_to_be_bytes v)) = .ok (v % u64Lim) := by
  simp [FileSeq.read_from_path, u64_to_be_bytes]
  have h := u64_from_to_be_bytes v
  simpa [u64_to_be_bytes] using h

theorem decodeSlot_enc (v : Nat) (hv : v < u64Lim) :
    decodeSlot (some (u64_to_be_bytes v)) = some v := by
  simp [decodeSlot, read_from_path_enc, Except.toOption, Nat.mod_eq_of_lt hv]

theorem decodeSlot_none : decodeSlot none = none := by
  simp [decodeSlot, FileSeq.read_from_path, Except.toOption]

/-- read on a state whose slots hold canonical encodings of v (path_1)
and w (path_2): return the larger, and delete path_2 when its value does
not exceed path_1. -/
theorem read_case_both (v w : Nat) (hv : v < u64Lim) (hw : w < u64Lim) :
    FileSeq.read ⟨some (u64_to_be_bytes v), some (u64_to_be_bytes w)⟩ =
      if v < w then (.ok w, ⟨some (u64_to_be_bytes v), some (u64_to_be_bytes w)⟩)
      else (.ok v, ⟨some (u64_to_be_bytes v), none⟩) := by
  simp [FileSeq.read, read_from_path_enc, Except.map, Except.toOption,
    Nat.mod_eq_of_lt hv, Nat.mod_eq_of_lt hw]

/-- read when only path_2 holds a canonical encoding. -/
theorem read_case_p2 (w : Nat) (hw : w < u64Lim) :
    FileSeq.read ⟨none, some (u64_to_be_bytes w)⟩ =
      (.ok w, ⟨none, some (u64_to_be_bytes w)⟩) := by
  simp [FileSeq.read, read_from_path_enc, Except.toOption, Nat.mod_eq_of_lt hw]

/-- read when only path_1 holds a canonical encoding. -/
theorem read_case_p1 (v : Nat) (hv : v < u64Lim) :
    FileSeq.read ⟨some (u64_to_be_bytes v), none⟩ =
      (.ok v, ⟨some (u64_to_be_bytes v), none⟩) := by
  simp [FileSeq.read, read_from_path_enc, Except.map, Nat.mod_eq_of_lt hv]

/-- On a good state, get_and_increment returns the largest decodable
value m and leaves path_1 holding m and path_2 holding the wrapped sum
m + d, whichever branch of read and write was taken. -/
theorem gai_good (st : DiskState) (d : Nat) (h : GoodState st) :
    FileSeq.get_and_increment st d =
      (.ok (maxVal st),
       ⟨some (u64_to_be_bytes (maxVal st)),
        some (u64_to_be_bytes ((maxVal st + d) % u64Lim))⟩) := by
  obtain ⟨hs1, hs2, hsome⟩ := h
  obtain ⟨f1, f2⟩ := st
  cases f1 with
  | none =>
    cases f2 with
    | none => simp at hsome
    | some bs2 =>
      obtain ⟨w, hw, rfl⟩ := hs2 bs2 rfl
      have hmax : maxVal ⟨none, some (u64_to_be_bytes w)⟩ = w := by
        simp [maxVal, decodeSlot_enc w hw, decodeSlot_none]
      rw [hmax]
      simp [FileSeq.get_and_increment, read_case_p2 w hw, FileSeq.write,
        FileSeq.write_to_path]
  | some bs1 =>
    obtain ⟨v, hv, rfl⟩ := hs1 bs1 rfl
    cases f2 with
    | none =>
      have hmax : maxVal ⟨some (u64_to_be_bytes v), none⟩ = v := by
        simp [maxVal, decodeSlot_enc v hv, decodeSlot_none]
      rw [hmax]
      simp [FileSeq.get_and_increment, read_case_p1 v hv, FileSeq.write,
        FileSeq.write_to_path]
    | some bs2 =>
      obtain ⟨w, hw, rfl⟩ := hs2 bs2 rfl
      by_cases hlt : v < w
      · have hmax :
            maxVal ⟨some (u64_to_be_bytes v), some (u64_to_be_bytes w)⟩ = w := by
          simp [maxVal, decodeSlot_enc v hv, decodeSlot_enc w hw,
            Nat.max_eq_right (Nat.le_of_lt hlt)]
        rw [hmax]
        simp [FileSeq.get_and_increment, read_case_both v w hv hw, hlt,
          FileSeq.write, FileSeq.write_to_path]
      · have hmax :
            maxVal ⟨some (u64_to_be_bytes v), some (u64_to_be_bytes w)⟩ = v := by
          simp [maxVal, decodeSlot_enc v hv, decodeSlot_enc w hw,
            Nat.max_eq_left (Nat.le_of_not_lt hlt)]
        rw [hmax]
        simp [FileSeq.get_and_increment, read_case_both v w hv hw, hlt,
          FileSeq.write, FileSeq.write_to_path]

/-- increment_and_get has the same disk effect as get_and_increment and
returns the wrapped post-increment value. -/
theorem iag_good (st : DiskState) (d : Nat) (h : GoodState st) :
    FileSeq.increment_and_get st d =
      (.ok ((maxVal st + d) % u64Lim),
       ⟨some (u64_to_be_bytes (maxVal st)),
        some (u64_to_be_bytes ((maxVal st + d) % u64Lim))⟩) := by
  simp [FileSeq.increment_and_get, gai_good st d h]

/-- On a good state, value returns the largest decodable value, and its
disk effect preserves goodness and that value. -/
theorem value_good (st : DiskState) (h : GoodState st) :
    (FileSeq.value st).1 = .ok (maxVal st) ∧
    GoodState (FileSeq.value st).2 ∧
    maxVal (FileSeq.value st).2 = maxVal st := by
  obtain ⟨hs1, hs2, hsome⟩ := h
  obtain ⟨f1, f2⟩ := st
  cases f1 with
  | none =>
    cases f2 with
    | none => simp at hsome
    | some bs2 =>
      obtain ⟨w, hw, rfl⟩ := hs2 bs2 rfl
      refine ⟨?_, ?_, ?_⟩ <;>
        simp [FileSeq.value, read_case_p2 w hw, maxVal, decodeSlot_enc w hw,
          decodeSlot_none, GoodState, validEnc_none, validEnc_enc w hw]
  | some bs1 =>
    obtain ⟨v, hv, rfl⟩ := hs1 bs1 rfl
    cases f2 with
    | none =>
      refine ⟨?_, ?_, ?_⟩ <;>
        simp [FileSeq.value, read_case_p1 v hv, maxVal, decodeSlot_enc v hv,
          decodeSlot_none, GoodState, validEnc_none, validEnc_enc v hv]
    | some bs2 =>
      obtain ⟨w, hw, rfl⟩ := hs2 bs2 rfl
      by_cases hlt : v < w
      · refine ⟨?_, ?_, ?_⟩ <;>
          simp [FileSeq.value, read_case_both v w hv hw, hlt, maxVal,
            decodeSlot_enc v hv, decodeSlot_enc w hw, GoodState,
            validEnc_none, validEnc_enc v hv, validEnc_enc w hw,
            Nat.max_eq_right (Nat.le_of_lt hlt)]
      · refine ⟨?_, ?_, ?_⟩ <;>
          simp [FileSeq.value, read_case_both v w hv hw, hlt, maxVal,
            decodeSlot_enc v hv, decodeSlot_enc w hw, decodeSlot_none,
            GoodState, validEnc_none, validEnc_enc v hv, validEnc_enc w hw,
            Nat.max_eq_left (Nat.le_of_not_lt hlt)]

/-- For every state, the only possible disk effect of read is the removal
of the path_2 file; path_1 and the contents of a surviving path_2 are
untouched. -/
theorem read_post (st : DiskState) :
    (FileSeq.read st).2 = st ∨ (FileSeq.read st).2 = { st with s2 := none } := by
  obtain ⟨f1, f2⟩ := st
  cases f1 with
  | none =>
    cases f2 with
    | none => right; simp [FileSeq.read]
    | some bs2 =>
      cases hE : FileSeq.read_from_path (some bs2) with
      | error e => right; simp [FileSeq.read, hE, Except.toOption]
      | ok w => left; simp [FileSeq.read, hE, Except.toOption]
  | some bs1 =>
    cases hE1 : FileSeq.read_from_path (some bs1) with
    | error e => left; simp [FileSeq.read, hE1, Except.map]
    | ok v =>
      cases f2 with
      | none => right; simp [FileSeq.read, hE1, Except.map]
      | some bs2 =>
        cases hE2 : FileSeq.read_from_path (some bs2) with
        | error e =>
          right
          simp [FileSeq.read, hE1, hE2, Except.map, Except.toOption]
        | ok w =>
          by_cases hlt : v < w
          · left
            simp [FileSeq.read, hE1, hE2, Except.map, Except.toOption, hlt]
          · right
            simp [FileSeq.read, hE1, hE2, Except.map, Except.toOption, hlt]

/-- The public operations of the store that touch the slot files. -/
inductive StoreOp
  | value
  | gai (d : Nat)
  | iag (d : Nat)
deriving DecidableEq, Repr

/-- Run one public operation. -/
def applyOp (st : DiskState) (op : StoreOp) : Except IOErrorKind Nat × DiskState :=
  match op with
  | .value => FileSeq.value st
  | .gai d => FileSeq.get_and_increment st d
  | .iag d => FileSeq.increment_and_get st d

/-- Disk state after a sequence of public operations. -/
def runOps (st : DiskState) : List StoreOp → DiskState
  | [] => st
  | op :: l => runOps (applyOp st op).2 l

def okB (e : Except IOErrorKind Nat) : Bool :=
  match e with
  | .ok _ => true
  | .error _ => false

/-- Every operation of the sequence succeeds. -/
def allOk (st : DiskState) : List StoreOp → Bool
  | [] => true
  | op :: l => okB (applyOp st op).1 && allOk (applyOp st op).2 l

/-- An increment schedule: each entry chooses get_and_increment (true) or
increment_and_get (false), with a delta. -/
def toIncOps (l : List (Bool × Nat)) : List StoreOp :=
  l.map (fun p => if p.1 then StoreOp.gai p.2 else StoreOp.iag p.2)

def deltaSum (l : List (Bool × Nat)) : Nat :=
  (l.map Prod.snd).sum

theorem decode_getD_lt (f : Option (List Nat)) (h : validEnc f) :
    (decodeSlot f).getD 0 < u64Lim := by
  cases f with
  | none => simp [decodeSlot_none, u64Lim]
  | some bs =>
    obtain ⟨v, hv, rfl⟩ := h bs rfl
    simpa [decodeSlot_enc v hv] using hv

theorem good_maxVal_lt (st : DiskState) (h : GoodState st) :
    maxVal st < u64Lim := by
  obtain ⟨h1, h2, _⟩ := h
  exact max_lt (decode_getD_lt _ h1) (decode_getD_lt _ h2)

theorem goodPair (a b : Nat) (ha : a < u64Lim) (hb : b < u64Lim) :
    GoodState ⟨some (u64_to_be_bytes a), some (u64_to_be_bytes b)⟩ :=
  ⟨validEnc_enc a ha, validEnc_enc b hb, Or.inl rfl⟩

theorem maxVal_pair (a b : Nat) (ha : a < u64Lim) (hb : b < u64Lim) :
    maxVal ⟨some (u64_to_be_bytes a), some (u64_to_be_bytes b)⟩ = max a b := by
  simp [maxVal, decodeSlot_enc a ha, decodeSlot_enc b hb]

theorem u64Lim_pos : 0 < u64Lim := by simp [u64Lim]

/-- Every public operation on a good state succeeds, preserves goodness,
and never decreases the largest decodable value. -/
theorem step_good (st : DiskState) (op : StoreOp) (h : GoodState st) :
    GoodState (applyOp st op).2 ∧ maxVal st ≤ maxVal (applyOp st op).2 ∧
    ∃ v, (applyOp st op).1 = .ok v := by
  cases op with
  | value =>
    obtain ⟨hv1, hv2, hv3⟩ := value_good st h
    exact ⟨hv2, le_of_eq hv3.symm, ⟨maxVal st, hv1⟩⟩
  | gai d =>
    have hm := good_maxVal_lt st h
    have hmod : (maxVal st + d) % u64Lim < u64Lim := Nat.mod_lt _ u64Lim_pos
    refine ⟨?_, ?_, ?_⟩
    · simp only [applyOp, gai_good st d h]
      exact goodPair _ _ hm hmod
    · simp [applyOp, gai_good st d h, maxVal_pair _ _ hm hmod]
    · exact ⟨maxVal st, by simp [applyOp, gai_good st d h]⟩
  | iag d =>
    have hm := good_maxVal_lt st h
    have hmod : (maxVal st + d) % u64Lim < u64Lim := Nat.mod_lt _ u64Lim_pos
    refine ⟨?_, ?_, ?_⟩
    · simp only [applyOp, iag_good st d h]
      exact goodPair _ _ hm hmod
    · simp [applyOp, iag_good st d h, maxVal_pair _ _ hm hmod]
    · exact ⟨(maxVal st + d) % u64Lim, by simp [applyOp, iag_good st d h]⟩

/-- Along any sequence of public operations from a good state, goodness
is preserved, the largest decodable value never decreases, and every
operation succeeds. -/
theorem runOps_good (l : List StoreOp) : ∀ st : DiskState, GoodState st →
    GoodState (runOps st l) ∧ maxVal st ≤ maxVal (runOps st l) ∧
    allOk st l = true := by
  induction l with
  | nil =>
    intro st h
    exact ⟨h, le_refl _, rfl⟩
  | cons op l ih =>
    intro st h
    obtain ⟨hg, hle, v, hok⟩ := step_good st op h
    obtain ⟨ihg, ihle, ihok⟩ := ih (applyOp st op).2 hg
    refine ⟨?_, ?_, ?_⟩
    · simpa [runOps] using ihg
    · have hcomb : maxVal st ≤ maxVal (runOps (applyOp st op).2 l) :=
        le_trans hle ihle
      simpa [runOps] using hcomb
    · simp [allOk, hok, okB, ihok]

theorem freshStore_eq (V : Nat) :
    FileSeq.freshStore V = ⟨none, some (u64_to_be_bytes V)⟩ := rfl

theorem good_fresh (V : Nat) (hV : V < u64Lim) :
    GoodState (FileSeq.freshStore V) := by
  rw [freshStore_eq]
  exact ⟨validEnc_none, validEnc_enc V hV, Or.inr rfl⟩

theorem maxVal_fresh (V : Nat) (hV : V < u64Lim) :
    maxVal (FileSeq.freshStore V) = V := by
  rw [freshStore_eq]
  simp [maxVal, decodeSlot_none, decodeSlot_enc V hV]

/-- Invariant maintained by a fresh store under increments whose running
sum stays below 2^64: path_2 holds the running value, path_1 is absent or
holds an older (not larger) value. -/
def C4Inv (st : DiskState) (cur : Nat) : Prop :=
  cur < u64Lim ∧ st.s2 = some (u64_to_be_bytes cur) ∧
  (st.s1 = none ∨ ∃ w, w ≤ cur ∧ st.s1 = some (u64_to_be_bytes w))

theorem c4inv_good (st : DiskState) (cur : Nat) (h : C4Inv st cur) :
    GoodState st ∧ maxVal st = cur := by
  obtain ⟨hlim, h2, h1⟩ := h
  obtain ⟨f1, f2⟩ := st
  simp only at h2
  subst h2
  rcases h1 with h1 | ⟨w, hw, h1⟩
  · simp only at h1
    subst h1
    refine ⟨⟨validEnc_none, validEnc_enc cur hlim, Or.inr rfl⟩, ?_⟩
    simp [maxVal, decodeSlot_none, decodeSlot_enc cur hlim]
  · simp only at h1
    subst h1
    have hwlim : w < u64Lim := lt_of_le_of_lt hw hlim
    refine ⟨⟨validEnc_enc w hwlim, validEnc_enc cur hlim, Or.inr rfl⟩, ?_⟩
    simp [maxVal, decodeSlot_enc w hwlim, decodeSlot_enc cur hlim,
      Nat.max_eq_right hw]

theorem c4_step_gai (st : DiskState) (cur d : Nat) (h : C4Inv st cur)
    (hd : cur + d < u64Lim) :
    FileSeq.get_and_increment st d =
      (.ok cur, ⟨some (u64_to_be_bytes cur), some (u64_to_be_bytes (cur + d))⟩) ∧
    C4Inv ⟨some (u64_to_be_bytes cur), some (u64_to_be_bytes (cur + d))⟩ (cur + d) := by
  obtain ⟨hg, hm⟩ := c4inv_good st cur h
  refine ⟨?_, hd, rfl, Or.inr ⟨cur, Nat.le_add_right _ _, rfl⟩⟩
  rw [gai_good st d hg, hm, Nat.mod_eq_of_lt hd]

theorem c4_step_iag (st : DiskState) (cur d : Nat) (h : C4Inv st cur)
    (hd : cur + d < u64Lim) :
    FileSeq.increment_and_get st d =
      (.ok (cur + d),
       ⟨some (u64_to_be_bytes cur), some (u64_to_be_bytes (cur + d))⟩) ∧
    C4Inv ⟨some (u64_to_be_bytes cur), some (u64_to_be_bytes (cur + d))⟩ (cur + d) := by
  obtain ⟨hg, hm⟩ := c4inv_good st cur h
  refine ⟨?_, hd, rfl, Or.inr ⟨cur, Nat.le_add_right _ _, rfl⟩⟩
  rw [iag_good st d hg, hm, Nat.mod_eq_of_lt hd]

theorem deltaSum_cons (p : Bool × Nat) (l : List (Bool × Nat)) :
    deltaSum (p :: l) = p.2 + deltaSum l := by
  simp [deltaSum]

/-- Running an increment schedule whose total stays below 2^64 from a
state satisfying the invariant: every operation succeeds and the final
state satisfies the invariant at the accumulated value. -/
theorem c4_run (l : List (Bool × Nat)) : ∀ (st : DiskState) (cur : Nat),
    C4Inv st cur → cur + deltaSum l < u64Lim →
    allOk st (toIncOps l) = true ∧
    C4Inv (runOps st (toIncOps l)) (cur + deltaSum l) := by
  induction l with
  | nil =>
    intro st cur h _
    simpa [toIncOps, allOk, runOps, deltaSum] using h
  | cons p l ih =>
    intro st cur h hs
    obtain ⟨b, d⟩ := p
    rw [deltaSum_cons] at hs
    have hd : cur + d < u64Lim := by omega
    have hs2 : (cur + d) + deltaSum l < u64Lim := by omega
    cases b with
    | true =>
      obtain ⟨heq, hinv⟩ := c4_step_gai st cur d h hd
      obtain ⟨hok, hinv2⟩ := ih _ _ hinv hs2
      refine ⟨?_, ?_⟩
      · simp [toIncOps, allOk, applyOp, heq, okB] at hok ⊢
        exact hok
      · have hrw : cur + deltaSum ((true, d) :: l) = (cur + d) + deltaSum l := by
          rw [deltaSum_cons]; omega
        rw [hrw]
        simpa [toIncOps, runOps, applyOp, heq] using hinv2
    | false =>
      obtain ⟨heq, hinv⟩ := c4_step_iag st cur d h hd
      obtain ⟨hok, hinv2⟩ := ih _ _ hinv hs2
      refine ⟨?_, ?_⟩
      · simp [toIncOps, allOk, applyOp, heq, okB] at hok ⊢
        exact hok
      · have hrw : cur + deltaSum ((false, d) :: l) = (cur + d) + deltaSum l := by
          rw [deltaSum_cons]; omega
        rw [hrw]
        simpa [toIncOps, runOps, applyOp, heq] using hinv2

/-- Running an increment schedule with positive deltas from a rotated
state in which path_2 strictly exceeds path_1: the shape is preserved. -/
theorem c6_run (l : List (Bool × Nat)) : ∀ prev cur : Nat,
    prev < cur → cur < u64Lim → (∀ p ∈ l, 1 ≤ p.2) →
    cur + deltaSum l < u64Lim →
    ∃ a b, a < b ∧ b < u64Lim ∧
      runOps ⟨some (u64_to_be_bytes prev), some (u64_to_be_bytes cur)⟩
          (toIncOps l) =
        ⟨some (u64_to_be_bytes a), some (u64_to_be_bytes b)⟩ := by
  induction l with
  | nil =>
    intro prev cur h1 h2 _ _
    exact ⟨prev, cur, h1, h2, rfl⟩
  | cons p l ih =>
    intro prev cur h1 h2 hd hs
    obtain ⟨b0, d⟩ := p
    rw [deltaSum_cons] at hs
    have hd1 : 1 ≤ d := hd (b0, d) (List.mem_cons_self _ _)
    have hprev : prev < u64Lim := lt_trans h1 h2
    have hg := goodPair prev cur hprev h2
    have hm : maxVal ⟨some (u64_to_be_bytes prev), some (u64_to_be_bytes cur)⟩
        = cur := by
      rw [maxVal_pair prev cur hprev h2]
      exact Nat.max_eq_right (Nat.le_of_lt h1)
    have hcd : cur + d < u64Lim := by omega
    have hs2 : (cur + d) + deltaSum l < u64Lim := by omega
    have hdl : ∀ p ∈ l, 1 ≤ p.2 := fun p hp => hd p (List.mem_cons_of_mem _ hp)
    obtain ⟨a, b, hab, hb, heq⟩ := ih cur (cur + d) (by omega) hcd hdl hs2
    refine ⟨a, b, hab, hb, ?_⟩
    cases b0 with
    | true =>
      have hgai := gai_good _ d hg
      rw [hm, Nat.mod_eq_of_lt hcd] at hgai
      simpa [toIncOps, runOps, applyOp, hgai] using heq
    | false =>
      have hiag := iag_good _ d hg
      rw [hm, Nat.mod_eq_of_lt hcd] at hiag
      simpa [toIncOps, runOps, applyOp, hiag] using heq

/-- After at least one increment from a good state, path_1 holds a
canonical encoding: each increment ends by writing into path_2 after the
pre-increment value has settled at path_1. -/
theorem run_incs_s1 (l : List (Bool × Nat)) : ∀ st : DiskState,
    GoodState st → l ≠ [] →
    ∃ m, m < u64Lim ∧
      (runOps st (toIncOps l)).s1 = some (u64_to_be_bytes m) := by
  induction l with
  | nil =>
    intro st _ hne
    exact absurd rfl hne
  | cons p l ih =>
    intro st hg _
    obtain ⟨b0, d⟩ := p
    by_cases hl : l = []
    · subst hl
      cases b0 with
      | true =>
        refine ⟨maxVal st, good_maxVal_lt st hg, ?_⟩
        simp [toIncOps, runOps, applyOp, gai_good st d hg]
      | false =>
        refine ⟨maxVal st, good_maxVal_lt st hg, ?_⟩
        simp [toIncOps, runOps, applyOp, iag_good st d hg]
    · cases b0 with
      | true =>
        obtain ⟨hg2, _, _⟩ := step_good st (StoreOp.gai d) hg
        obtain ⟨m, hm, hs1⟩ := ih _ hg2 hl
        exact ⟨m, hm, by simpa [toIncOps, runOps] using hs1⟩
      | false =>
        obtain ⟨hg2, _, _⟩ := step_good st (StoreOp.iag d) hg
        obtain ⟨m, hm, hs1⟩ := ih _ hg2 hl
        exact ⟨m, hm, by simpa [toIncOps, runOps] using hs1⟩

/-- read_from_path on a truncated file: read_exact fails. -/
theorem read_from_path_short (bs : List Nat) (h : bs.length < 8) :
    FileSeq.read_from_path (some bs) = .error .unexpectedEof := by
  have h8 : ¬ 8 ≤ bs.length := by omega
  simp [FileSeq.read_from_path, h8]

/-- A read_from_path failure on a present file can only be UnexpectedEof. -/
theorem read_from_path_some_error (bs : List Nat) (e : IOErrorKind)
    (h : FileSeq.read_from_path (some bs) = .error e) : e = .unexpectedEof := by
  by_cases h8 : 8 ≤ bs.length
  · simp [FileSeq.read_from_path, h8] at h
  · simp [FileSeq.read_from_path, h8] at h
    exact h.symm

/-- C1: for every store that has performed at least one increment, if the
slot file most recently written (path_2) is truncated or otherwise made
undecodable while path_1 is left intact, the next value() call returns
the value decoded from the intact path_1 slot, and after that call the
corrupted path_2 file no longer exists. -/
theorem claim_C1_crash_recovery (V : Nat) (l : List (Bool × Nat))
    (junk : List Nat) (hV : V < u64Lim) (hne : l ≠ []) (hj : junk.length < 8) :
    ∃ m, m < u64Lim ∧
      (runOps (FileSeq.freshStore V) (toIncOps l)).s1 =
        some (u64_to_be_bytes m) ∧
      FileSeq.value
          ⟨(runOps (FileSeq.freshStore V) (toIncOps l)).s1, some junk⟩ =
        (.ok m, ⟨some (u64_to_be_bytes m), none⟩) := by
  obtain ⟨m, hm, hs1⟩ :=
    run_incs_s1 l (FileSeq.freshStore V) (good_fresh V hV) hne
  refine ⟨m, hm, hs1, ?_⟩
  rw [hs1]
  simp [FileSeq.value, FileSeq.read, read_from_path_enc, Except.map,
    Nat.mod_eq_of_lt hm, read_from_path_short junk hj, Except.toOption]

/-- C1 witness: initial value 1, one get_and_increment of 1, path_2
replaced by the single byte 0. -/
theorem claim_C1_crash_recovery_witness :
    ∃ m, m < u64Lim ∧
      (runOps (FileSeq.freshStore 1) (toIncOps [(true, 1)])).s1 =
        some (u64_to_be_bytes m) ∧
      FileSeq.value
          ⟨(runOps (FileSeq.freshStore 1) (toIncOps [(true, 1)])).s1,
           some [0]⟩ =
        (.ok m, ⟨some (u64_to_be_bytes m), none⟩) :=
  claim_C1_crash_recovery 1 [(true, 1)] [0] (by norm_num [u64Lim]) (by simp)
    (by simp)

/-- C2 counterexample: a present-but-truncated path_1 is not treated like
an absent path_1 and does make the read fail.  With path_2 valid holding
5, an absent path_1 yields Ok(5), while a 3-byte path_1 file makes read
fail with the UnexpectedEof I/O error. -/
theorem claim_C2_counterexample :
    FileSeq.read ⟨none, some (u64_to_be_bytes 5)⟩ =
      (.ok 5, ⟨none, some (u64_to_be_bytes 5)⟩) ∧
    (FileSeq.read ⟨some [0, 0, 0], some (u64_to_be_bytes 5)⟩).1 =
      .error .unexpectedEof ∧
    (Except.error IOErrorKind.unexpectedEof : Except IOErrorKind Nat) ≠
      Except.ok 5 :=
  ⟨rfl, rfl, fun h => Except.noConfusion h⟩

/-- C2 amended: path_2 is decoded independently and an absent or
truncated path_2 contributes None to reconciliation (the read result is
the same as with path_2 absent); path_1 contributes None only when
absent: a present-but-truncated path_1 makes read fail with the
underlying UnexpectedEof I/O error instead. -/
theorem claim_C2_amended (junk : List Nat) (hj : junk.length < 8) :
    (∀ st : DiskState, st.s2 = some junk →
      (FileSeq.read st).1 = (FileSeq.read { st with s2 := none }).1) ∧
    (∀ f2 : Option (List Nat),
      (FileSeq.read ⟨some junk, f2⟩).1 = .error .unexpectedEof) := by
  constructor
  · intro st hst
    obtain ⟨f1, f2⟩ := st
    replace hst : f2 = some junk := hst
    subst hst
    cases f1 with
    | none =>
      simp [FileSeq.read, read_from_path_short junk hj, Except.toOption]
    | some bs1 =>
      cases hE : FileSeq.read_from_path (some bs1) with
      | error e =>
        simp [FileSeq.read, hE, Except.map, read_from_path_short junk hj,
          Except.toOption]
      | ok v =>
        simp [FileSeq.read, hE, Except.map, read_from_path_short junk hj,
          Except.toOption]
  · intro f2
    simp [FileSeq.read, read_from_path_short junk hj, Except.map]

/-- C2 witness: truncated file [0]; path_1 valid holding 7 for the first
part, path_1 truncated with path_2 valid for the second. -/
theorem claim_C2_amended_witness :
    (FileSeq.read ⟨some (u64_to_be_bytes 7), some [0]⟩).1 =
      (FileSeq.read ⟨some (u64_to_be_bytes 7), none⟩).1 ∧
    (FileSeq.read ⟨some [0], some (u64_to_be_bytes 7)⟩).1 =
      .error .unexpectedEof :=
  ⟨(claim_C2_amended [0] (by simp)).1 ⟨some (u64_to_be_bytes 7), some [0]⟩ rfl,
   (claim_C2_amended [0] (by simp)).2 (some (u64_to_be_bytes 7))⟩

/-- C3 counterexample: with path_1 present but truncated (3 bytes) and
path_2 absent, neither slot decodes, yet value() fails with the
UnexpectedEof I/O error kind, not the InvalidData (Corrupted) kind. -/
theorem claim_C3_counterexample :
    (FileSeq.read ⟨some [0, 0, 0], none⟩).1 = .error .unexpectedEof ∧
    IOErrorKind.unexpectedEof ≠ IOErrorKind.invalidData :=
  ⟨rfl, by decide⟩

/-- C3 amended: whenever neither slot decodes, value() fails (never a
silently defaulted value), but the InvalidData (Corrupted) kind is
raised exactly when path_1 is absent and path_2 is absent or
undecodable; a present-but-unreadable path_1 surfaces the underlying
I/O error kind instead. -/
theorem claim_C3_amended (st : DiskState) :
    (decodeSlot st.s1 = none → decodeSlot st.s2 = none →
      ∃ e, (FileSeq.read st).1 = .error e) ∧
    ((FileSeq.read st).1 = .error .invalidData ↔
      st.s1 = none ∧ decodeSlot st.s2 = none) := by
  obtain ⟨f1, f2⟩ := st
  cases f1 with
  | none =>
    cases f2 with
    | none =>
      refine ⟨fun _ _ => ⟨.invalidData, rfl⟩, ?_⟩
      simp [FileSeq.read, decodeSlot, FileSeq.read_from_path, Except.toOption]
    | some bs2 =>
      cases hE2 : FileSeq.read_from_path (some bs2) with
      | error e =>
        refine ⟨fun _ _ =>
          ⟨.invalidData, by simp [FileSeq.read, hE2, Except.toOption]⟩, ?_⟩
        simp [FileSeq.read, hE2, Except.toOption, decodeSlot]
      | ok w =>
        constructor
        · intro _ h2
          rw [decodeSlot, hE2] at h2
          simp [Except.toOption] at h2
        · simp [FileSeq.read, hE2, Except.toOption, decodeSlot]
  | some bs1 =>
    cases hE1 : FileSeq.read_from_path (some bs1) with
    | error e =>
      have he := read_from_path_some_error bs1 e hE1
      subst he
      refine ⟨fun _ _ =>
        ⟨.unexpectedEof, by simp [FileSeq.read, hE1, Except.map]⟩, ?_⟩
      simp [FileSeq.read, hE1, Except.map]
    | ok v =>
      constructor
      · intro h1 _
        rw [decodeSlot, hE1] at h1
        simp [Except.toOption] at h1
      · cases f2 with
        | none => simp [FileSeq.read, hE1, Except.map]
        | some bs2 =>
          cases hE2 : FileSeq.read_from_path (some bs2) with
          | error e2 =>
            simp [FileSeq.read, hE1, hE2, Except.map, Except.toOption]
          | ok w =>
            by_cases hlt : v < w
            · simp [FileSeq.read, hE1, hE2, Except.map, Except.toOption, hlt]
            · simp [FileSeq.read, hE1, hE2, Except.map, Except.toOption, hlt]

/-- C3 witness: the doubly absent state, where value() fails and the
error kind is InvalidData by the equivalence. -/
theorem claim_C3_amended_witness :
    (∃ e, (FileSeq.read ⟨none, none⟩).1 = .error e) ∧
    ((FileSeq.read ⟨none, none⟩).1 = .error .invalidData ↔
      (⟨none, none⟩ : DiskState).s1 = none ∧
      decodeSlot (⟨none, none⟩ : DiskState).s2 = none) :=
  ⟨(claim_C3_amended ⟨none, none⟩).1
      (by simp [decodeSlot, FileSeq.read_from_path, Except.toOption])
      (by simp [decodeSlot, FileSeq.read_from_path, Except.toOption]),
   (claim_C3_amended ⟨none, none⟩).2⟩

/-- C4 counterexample: starting at V = 2^64 - 1 with a single
get_and_increment of delta 1, every operation succeeds, yet value()
returns 2^64 - 1 rather than V + sum of deltas = 2^64: the increment
wrapped path_2 to 0 and reconciliation then sides with the rotated old
value in path_1. -/
theorem claim_C4_counterexample :
    allOk (FileSeq.freshStore (u64Lim - 1)) (toIncOps [(true, 1)]) = true ∧
    (FileSeq.value
        (runOps (FileSeq.freshStore (u64Lim - 1)) (toIncOps [(true, 1)]))).1 =
      .ok (u64Lim - 1) ∧
    u64Lim - 1 ≠ u64Lim - 1 + 1 := by
  refine ⟨rfl, rfl, by norm_num [u64Lim]⟩

/-- C4 amended: for every starting value V and schedule of deltas applied
via either increment operation, provided V plus the sum of the deltas
stays below 2^64, all operations succeed and a subsequent value() returns
V plus the sum of the deltas. -/
theorem claim_C4_amended (V : Nat) (l : List (Bool × Nat))
    (hsum : V + deltaSum l < u64Lim) :
    allOk (FileSeq.freshStore V) (toIncOps l) = true ∧
    (FileSeq.value (runOps (FileSeq.freshStore V) (toIncOps l))).1 =
      .ok (V + deltaSum l) := by
  have hV : V < u64Lim := by omega
  have hfresh : C4Inv (FileSeq.freshStore V) V := by
    rw [freshStore_eq]
    exact ⟨hV, rfl, Or.inl rfl⟩
  obtain ⟨hok, hinv⟩ := c4_run l (FileSeq.freshStore V) V hfresh hsum
  obtain ⟨hg, hm⟩ := c4inv_good _ _ hinv
  obtain ⟨hv, _, _⟩ := value_good _ hg
  exact ⟨hok, by rw [hv, hm]⟩

/-- C4 witness: V = 1 with one get_and_increment of 2 and one
increment_and_get of 3; value() returns 1 + 5. -/
theorem claim_C4_amended_witness :
    allOk (FileSeq.freshStore 1) (toIncOps [(true, 2), (false, 3)]) = true ∧
    (FileSeq.value
        (runOps (FileSeq.freshStore 1) (toIncOps [(true, 2), (false, 3)]))).1 =
      .ok (1 + deltaSum [(true, 2), (false, 3)]) :=
  claim_C4_amended 1 [(true, 2), (false, 3)] (by simp [deltaSum, u64Lim])

/-- C5: under single-writer discipline, from any state after the first
successful write (every present slot a canonical encoding, at least one
present), for any two successful value() reads separated by arbitrary
sequences of value, get_and_increment, and increment_and_get operations
(any deltas, self-healing included), the later read returns a value at
least the earlier one. -/
theorem claim_C5_monotonic_reads (st : DiskState) (h : GoodState st)
    (ops1 ops2 : List StoreOp) (v1 v2 : Nat)
    (h1 : (FileSeq.value (runOps st ops1)).1 = .ok v1)
    (h2 : (FileSeq.value
        (runOps (FileSeq.value (runOps st ops1)).2 ops2)).1 = .ok v2) :
    v1 ≤ v2 := by
  obtain ⟨hg1, hle1, _⟩ := runOps_good ops1 st h
  obtain ⟨hv1, hgA, hmA⟩ := value_good (runOps st ops1) hg1
  rw [h1] at hv1
  obtain ⟨hg2, hle2, _⟩ :=
    runOps_good ops2 (FileSeq.value (runOps st ops1)).2 hgA
  obtain ⟨hv2, _, _⟩ :=
    value_good (runOps (FileSeq.value (runOps st ops1)).2 ops2) hg2
  rw [h2] at hv2
  have e1 : v1 = maxVal (runOps st ops1) := Except.ok.inj hv1
  have e2 : v2 = maxVal (runOps (FileSeq.value (runOps st ops1)).2 ops2) :=
    Except.ok.inj hv2
  rw [e1, e2, ← hmA]
  exact hle2

/-- C5 witness: fresh store at 1, a get_and_increment of 2 before the
first read (which returns 3), an increment_and_get of 3 before the
second (which returns 6). -/
theorem claim_C5_monotonic_reads_witness : (3 : Nat) ≤ 6 :=
  claim_C5_monotonic_reads (FileSeq.freshStore 1)
    (good_fresh 1 (by norm_num [u64Lim])) [StoreOp.gai 2] [StoreOp.iag 3]
    3 6 rfl rfl

/-- C6 counterexample: a delta of 0 (fresh store at 1, one
get_and_increment of 0) leaves both slots decoding to the same value 1,
and an overflowing delta (fresh store at 2^64 - 1, one get_and_increment
of 1) leaves path_2 decoding to 0, strictly smaller than path_1. -/
theorem claim_C6_counterexample :
    decodeSlot (runOps (FileSeq.freshStore 1) (toIncOps [(true, 0)])).s1 =
      decodeSlot (runOps (FileSeq.freshStore 1) (toIncOps [(true, 0)])).s2 ∧
    decodeSlot
        (runOps (FileSeq.freshStore (u64Lim - 1)) (toIncOps [(true, 1)])).s2 =
      some 0 ∧
    decodeSlot
        (runOps (FileSeq.freshStore (u64Lim - 1)) (toIncOps [(true, 1)])).s1 =
      some (u64Lim - 1) ∧
    (0 : Nat) < u64Lim - 1 := by
  refine ⟨rfl, rfl, rfl, by norm_num [u64Lim]⟩

/-- C6 amended: after at least one increment, with every delta at least 1
and the running sum below 2^64, both slot files exist, their decoded
values differ, and the slot last written (path_2) holds the strictly
larger value. -/
theorem claim_C6_amended (V : Nat) (l : List (Bool × Nat)) (hne : l ≠ [])
    (hd : ∀ p ∈ l, 1 ≤ p.2) (hsum : V + deltaSum l < u64Lim) :
    ∃ a b, a < b ∧
      decodeSlot (runOps (FileSeq.freshStore V) (toIncOps l)).s1 = some a ∧
      decodeSlot (runOps (FileSeq.freshStore V) (toIncOps l)).s2 = some b := by
  cases l with
  | nil => exact absurd rfl hne
  | cons p l =>
    obtain ⟨b0, d⟩ := p
    have hsum2 : V + (d + deltaSum l) < u64Lim := by
      simpa [deltaSum_cons] using hsum
    have hV : V < u64Lim := by omega
    have hd1 : 1 ≤ d := hd (b0, d) (List.mem_cons_self _ _)
    have hVd : V + d < u64Lim := by omega
    have hg := good_fresh V hV
    have hm := maxVal_fresh V hV
    have hdl : ∀ p ∈ l, 1 ≤ p.2 := fun p hp => hd p (List.mem_cons_of_mem _ hp)
    have hs2 : (V + d) + deltaSum l < u64Lim := by omega
    obtain ⟨a, b, hab, hb, heq⟩ := c6_run l V (V + d) (by omega) hVd hdl hs2
    have ha : a < u64Lim := lt_trans hab hb
    cases b0 with
    | true =>
      have hgai := gai_good (FileSeq.freshStore V) d hg
      rw [hm, Nat.mod_eq_of_lt hVd] at hgai
      have hrun : runOps (FileSeq.freshStore V) (toIncOps ((true, d) :: l)) =
          ⟨some (u64_to_be_bytes a), some (u64_to_be_bytes b)⟩ := by
        simpa [toIncOps, runOps, applyOp, hgai] using heq
      refine ⟨a, b, hab, ?_, ?_⟩
      · rw [hrun]
        exact decodeSlot_enc a ha
      · rw [hrun]
        exact decodeSlot_enc b hb
    | false =>
      have hiag := iag_good (FileSeq.freshStore V) d hg
      rw [hm, Nat.mod_eq_of_lt hVd] at hiag
      have hrun : runOps (FileSeq.freshStore V) (toIncOps ((false, d) :: l)) =
          ⟨some (u64_to_be_bytes a), some (u64_to_be_bytes b)⟩ := by
        simpa [toIncOps, runOps, applyOp, hiag] using heq
      refine ⟨a, b, hab, ?_, ?_⟩
      · rw [hrun]
        exact decodeSlot_enc a ha
      · rw [hrun]
        exact decodeSlot_enc b hb

/-- C6 witness: fresh store at 1, a get_and_increment of 1 then an
increment_and_get of 2. -/
theorem claim_C6_amended_witness :
    ∃ a b, a < b ∧
      decodeSlot
          (runOps (FileSeq.freshStore 1) (toIncOps [(true, 1), (false, 2)])).s1 =
        some a ∧
      decodeSlot
          (runOps (FileSeq.freshStore 1) (toIncOps [(true, 1), (false, 2)])).s2 =
        some b :=
  claim_C6_amended 1 [(true, 1), (false, 2)] (by simp) (by decide)
    (by simp [deltaSum, u64Lim])

/-- C7 counterexample: value() is not a pure read: on the state where
path_1 decodes to 5 and path_2 to 3, value() deletes the path_2 file,
changing the on-disk state. -/
theorem claim_C7_counterexample :
    (FileSeq.value ⟨some (u64_to_be_bytes 5), some (u64_to_be_bytes 3)⟩).2 ≠
      ⟨some (u64_to_be_bytes 5), some (u64_to_be_bytes 3)⟩ := by
  decide

/-- C7 amended: value() never touches path_1 and never writes path_2;
its only possible mutation of the on-disk state is removing the path_2
file (in the self-heal branch and in the corrupt-or-absent path_2
cleanup branch). -/
theorem claim_C7_amended (st : DiskState) :
    (FileSeq.value st).2.s1 = st.s1 ∧
    ((FileSeq.value st).2 = st ∨
      (FileSeq.value st).2 = { st with s2 := none }) := by
  rcases read_post st with h | h
  · exact ⟨by simp [FileSeq.value, h], Or.inl h⟩
  · exact ⟨by simp [FileSeq.value, h], Or.inr h⟩

/-- C8 counterexample: the claim fails under either reading of
backup/latest.  With path_1 = 3 and path_2 = 5 (path_2 at least
path_1), value() returns 5 and removes nothing; with path_1 = 5 and
path_2 = 3 (path_1 at least path_2), value() returns 5, not 3, and the
file it removes is path_2.  In neither state does value() return the
smaller (latest-by-either-name) value 3. -/
theorem claim_C8_counterexample :
    (FileSeq.value ⟨some (u64_to_be_bytes 3), some (u64_to_be_bytes 5)⟩).1 =
      .ok 5 ∧
    (FileSeq.value ⟨some (u64_to_be_bytes 3), some (u64_to_be_bytes 5)⟩).2 =
      ⟨some (u64_to_be_bytes 3), some (u64_to_be_bytes 5)⟩ ∧
    (FileSeq.value ⟨some (u64_to_be_bytes 5), some (u64_to_be_bytes 3)⟩).1 =
      .ok 5 ∧
    (FileSeq.value ⟨some (u64_to_be_bytes 5), some (u64_to_be_bytes 3)⟩).2 =
      ⟨some (u64_to_be_bytes 5), none⟩ ∧
    (5 : Nat) ≠ 3 :=
  ⟨rfl, rfl, rfl, rfl, by decide⟩

/-- C8 amended: when both slots decode and path_2's value is less than
or equal to path_1's value, value() succeeds (the anomaly is not an
error), returns path_1's value, and removes the path_2 slot file as a
side effect. -/
theorem claim_C8_amended (v1 v2 : Nat) (hv1 : v1 < u64Lim) (hv2 : v2 < u64Lim)
    (h : v2 ≤ v1) :
    FileSeq.value ⟨some (u64_to_be_bytes v1), some (u64_to_be_bytes v2)⟩ =
      (.ok v1, ⟨some (u64_to_be_bytes v1), none⟩) := by
  have hnlt : ¬ v1 < v2 := Nat.not_lt.mpr h
  simp [FileSeq.value, read_case_both v1 v2 hv1 hv2, hnlt]

/-- C8 witness: path_1 = 5, path_2 = 3. -/
theorem claim_C8_amended_witness :
    FileSeq.value ⟨some (u64_to_be_bytes 5), some (u64_to_be_bytes 3)⟩ =
      (.ok 5, ⟨some (u64_to_be_bytes 5), none⟩) :=
  claim_C8_amended 5 3 (by norm_num [u64Lim]) (by norm_num [u64Lim])
    (by norm_num)

/-- C9: delete() removes path_1 first, then path_2, and is not atomic on
failure: if path_1 is missing it fails leaving the state untouched; if
path_1 is present but path_2 is missing, path_1 is removed even though
delete() returns an error; with both present it removes both and
succeeds. -/
theorem claim_C9_delete (st : DiskState) :
    (st.s1 = none → FileSeq.delete st = (.error .notFound, st)) ∧
    (st.s1.isSome = true → st.s2 = none →
      FileSeq.delete st = (.error .notFound, ⟨none, none⟩)) ∧
    (st.s1.isSome = true → st.s2.isSome = true →
      (FileSeq.delete st).1 = .ok () ∧
      (FileSeq.delete st).2 = ⟨none, none⟩) := by
  obtain ⟨f1, f2⟩ := st
  cases f1 <;> cases f2 <;> simp [FileSeq.delete]

/-- C9 witness: the three branches at concrete states. -/
theorem claim_C9_delete_witness :
    FileSeq.delete ⟨none, some (u64_to_be_bytes 1)⟩ =
      (.error .notFound, ⟨none, some (u64_to_be_bytes 1)⟩) ∧
    FileSeq.delete ⟨some (u64_to_be_bytes 1), none⟩ =
      (.error .notFound, ⟨none, none⟩) ∧
    (FileSeq.delete ⟨some (u64_to_be_bytes 1), some (u64_to_be_bytes 2)⟩).1 =
      .ok () ∧
    (FileSeq.delete ⟨some (u64_to_be_bytes 1), some (u64_to_be_bytes 2)⟩).2 =
      ⟨none, none⟩ :=
  ⟨(claim_C9_delete ⟨none, some (u64_to_be_bytes 1)⟩).1 rfl,
   (claim_C9_delete ⟨some (u64_to_be_bytes 1), none⟩).2.1 rfl rfl,
   (claim_C9_delete ⟨some (u64_to_be_bytes 1), some (u64_to_be_bytes 2)⟩).2.2
     rfl rfl⟩

/-- C10: get_and_increment persists (v + d) mod 2^64, increment_and_get
returns that wrapped value, and the persisted value is strictly smaller
than the previous value exactly when v + d reaches 2^64, so stored
values are non-decreasing only under the no-overflow precondition. -/
theorem claim_C10_wrapping (v d : Nat) (hv : v < u64Lim) (hd : d < u64Lim) :
    (FileSeq.get_and_increment (FileSeq.freshStore v) d).2.s2 =
      some (u64_to_be_bytes ((v + d) % u64Lim)) ∧
    (FileSeq.increment_and_get (FileSeq.freshStore v) d).1 =
      .ok ((v + d) % u64Lim) ∧
    ((v + d) % u64Lim < v ↔ u64Lim ≤ v + d) := by
  have hg := good_fresh v hv
  have hm := maxVal_fresh v hv
  refine ⟨?_, ?_, ?_⟩
  · rw [gai_good _ _ hg, hm]
  · rw [iag_good _ _ hg, hm]
  · simp only [u64Lim] at hv hd ⊢
    omega

/-- C10 witness: v = 2^64 - 1, d = 1: the persisted value wraps to 0,
strictly below the previous value. -/
theorem claim_C10_wrapping_witness :
    (FileSeq.get_and_increment (FileSeq.freshStore (u64Lim - 1)) 1).2.s2 =
      some (u64_to_be_bytes ((u64Lim - 1 + 1) % u64Lim)) ∧
    (FileSeq.increment_and_get (FileSeq.freshStore (u64Lim - 1)) 1).1 =
      .ok ((u64Lim - 1 + 1) % u64Lim) ∧
    ((u64Lim - 1 + 1) % u64Lim < u64Lim - 1 ↔ u64Lim ≤ u64Lim - 1 + 1) :=
  claim_C10_wrapping (u64Lim - 1) 1 (by norm_num [u64Lim])
    (by norm_num [u64Lim])
